import Mathlib

/-!
Verification development for the `nettish` client-side prediction/timing
library (sources: `src/prediction.rs`, `src/input_queue.rs`, `src/throttle.rs`).

Modelling conventions:
* `u16` values are `Nat`s combined with explicit `% 65536` wrapping arithmetic
  (`wsub`, `wadd` below mirror `u16::wrapping_sub` / `u16::wrapping_add`).
* `VecDeque<Input>` is a `List Input` whose head is the front (oldest element);
  `push_back` appends, `pop_front`/`drain(0..k)` take the tail / drop a prefix.
* `std::time::Instant` and `Duration` in the input queue are `Nat`s (an
  arbitrary monotone time unit); `now - epoch` is truncated subtraction, which
  agrees with the Rust semantics whenever `now ≥ epoch` (the monotone-clock
  precondition documented by the library).
* `Duration` in `throttle` is a rational number of seconds, and the `f32`
  operations (`mul_f32`, `div_duration_f32`, `as_secs_f32`) are modelled as
  exact rational arithmetic.  Rational division by zero is `0`, which matches
  the NaN-clamping path of the source (`f32::max(0.0, NaN) = 0.0`).
-/

set_option maxRecDepth 16000

/-- Wrapping 16-bit subtraction: `a.wrapping_sub b` on `u16`. -/
def wsub (a b : Nat) : Nat := (a % 65536 + (65536 - b % 65536)) % 65536

/-- Wrapping 16-bit addition: `a.wrapping_add b` on `u16`. -/
def wadd (a b : Nat) : Nat := (a + b) % 65536

/-- Sequence of inputs transmitted to the server (`PredictionQueue` in
`src/prediction.rs`).  `in_flight` holds inputs oldest-first, and
`next_sequence_number` is the wrapping 16-bit counter naming the sequence
number that will obsolete the next recorded input. -/
structure PredictionQueue (Input : Type) where
  in_flight : List Input
  next_sequence_number : Nat
deriving DecidableEq, Repr

namespace PredictionQueue

/-- Constructor `PredictionQueue::new`; the argument is a `u16`, hence the
reduction mod 65536. -/
def new (Input : Type) (next_sequence_number : Nat) : PredictionQueue Input :=
  { in_flight := [], next_sequence_number := next_sequence_number % 65536 }

/-- Method `PredictionQueue::record`: push the input at the back and
increment the sequence counter, wrapping. -/
def record (q : PredictionQueue Input) (input : Input) : PredictionQueue Input :=
  { in_flight := q.in_flight ++ [input]
    next_sequence_number := wadd q.next_sequence_number 1 }

/-- Method `PredictionQueue::reconcile`:
drop inputs transmitted at or before `sequence_number`.
`diff = next_sequence_number.wrapping_sub(sequence_number)`; when
`diff ≥ u16::MAX / 2 = 32767` the queue is cleared and the counter
fast-forwarded to `sequence_number + 1`; otherwise
`drain(0 .. len.saturating_sub(diff.wrapping_sub(1)))` drops a prefix.
Natural subtraction on `Nat` is `saturating_sub`. -/
def reconcile (q : PredictionQueue Input) (sequence_number : Nat) :
    PredictionQueue Input :=
  let diff := wsub q.next_sequence_number sequence_number
  if 32767 ≤ diff then
    { in_flight := [], next_sequence_number := wadd sequence_number 1 }
  else
    { q with
      in_flight := q.in_flight.drop (q.in_flight.length - wsub diff 1) }

end PredictionQueue

/-- A jitter-tolerant queue of inputs (`InputQueue` in `src/input_queue.rs`).
`queue` holds inputs oldest-first; `epoch` is the time the first input of the
current uninterrupted run was received (`none` when no run is active). -/
structure InputQueue (T : Type) where
  queue : List T
  epoch : Option Nat
deriving DecidableEq, Repr

namespace InputQueue

/-- Method `InputQueue::push`: when the queue already holds exactly `max`
items the front (oldest) is popped, then the input is appended; the epoch is
set to `now` if no run is active. -/
def push (q : InputQueue T) (max : Nat) (input : T) (now : Nat) :
    InputQueue T :=
  { queue :=
      (if q.queue.length = max then q.queue.tail else q.queue) ++ [input]
    epoch := match q.epoch with
             | none => some now
             | some e => some e }

/-- Method `InputQueue::take`: returns the popped input (if any) together with
the updated queue.  With no epoch (`now - self.epoch?`) it returns nothing;
before `delay` has elapsed since the epoch it returns nothing and leaves the
state untouched; on an under-run the epoch is reset to `none`. -/
def take (q : InputQueue T) (now delay : Nat) : Option T × InputQueue T :=
  match q.epoch with
  | none => (none, q)
  | some e =>
    if now - e < delay then
      (none, q)
    else
      match q.queue with
      | [] => (none, { queue := [], epoch := none })
      | x :: xs => (some x, { queue := xs, epoch := some e })

end InputQueue

/-- The branch-selected value `scaled` inside `throttle` (`src/throttle.rs`),
before the final clamp.  `checked_sub` returns `Some` exactly when the
subtraction does not go negative, so the slow-down branch fires when
`buffer_remaining ≤ min_latency` and the speed-up branch when
`min_latency + hysteresis ≤ buffer_remaining`.  The `f32` scaling is modelled
as exact rational arithmetic (see the file header). -/
def throttleScaled (real_time buffer_remaining min_latency hysteresis : ℚ) :
    ℚ :=
  if buffer_remaining ≤ min_latency then
    real_time *
      (1 - min 1 (max 0 ((min_latency - buffer_remaining) / min_latency)))
  else if min_latency + hysteresis ≤ buffer_remaining then
    real_time +
      min (real_time * (buffer_remaining - (min_latency + hysteresis)))
        (buffer_remaining - (min_latency + hysteresis))
  else
    real_time

/-- Function `throttle`: the branch-selected value clamped so it never
exceeds `buffer_remaining` (`Ord::min(scaled, buffer_remaining)`). -/
def throttle (real_time buffer_remaining min_latency hysteresis : ℚ) : ℚ :=
  min (throttleScaled real_time buffer_remaining min_latency hysteresis)
    buffer_remaining

/-- Modelled from the spec (section 4.2): the retained in-flight entries,
keeping exactly those whose implicit sequence number is *not* `≤
sequence_number` in ring-ordering.  The entry at index `i` carries sequence
number `next_sequence_number - len + i (mod 2^16)`, and `a ≤ b` in
ring-ordering when the wrapping distance `b - a` is strictly below half the
ring (32768).  `keptFrom` walks the list carrying the index `i`. -/
def keptFrom (next len s : Nat) : Nat → List Input → List Input
  | _, [] => []
  | i, x :: xs =>
    if wsub s (wsub (next + i) len) < 32768 then
      keptFrom next len s (i + 1) xs
    else
      x :: keptFrom next len s (i + 1) xs

/-- Modelled from the spec: the entries `reconcile sequence_number` should
retain, per the spec's ring-ordering rule.  See `keptFrom`. -/
def specKept (q : PredictionQueue Input) (sequence_number : Nat) :
    List Input :=
  keptFrom q.next_sequence_number q.in_flight.length sequence_number 0
    q.in_flight

/-- Modelled from the spec: the last `n` elements of `l` (the retained suffix
the spec describes). -/
def takeLast (l : List Input) (n : Nat) : List Input :=
  l.drop (l.length - n)

/-! ### Basic lemmas about the wrapping arithmetic and `reconcile` -/

lemma wsub_lt_ring (a b : Nat) : wsub a b < 65536 := by
  unfold wsub
  omega

lemma wsub_one_of_pos {d : Nat} (h1 : 1 ≤ d) (h2 : d < 65536) :
    wsub d 1 = d - 1 := by
  unfold wsub
  omega

/-- Unfolding of `reconcile` in the clear-and-fast-forward branch. -/
lemma reconcile_high {Input : Type} (q : PredictionQueue Input) (s : Nat)
    (h : 32767 ≤ wsub q.next_sequence_number s) :
    q.reconcile s = ⟨[], wadd s 1⟩ := by
  obtain ⟨l, n⟩ := q
  simp only [PredictionQueue.reconcile] at h ⊢
  rw [if_pos h]

/-- Unfolding of `reconcile` in the suffix-retention branch. -/
lemma reconcile_low {Input : Type} (q : PredictionQueue Input) (s : Nat)
    (h : wsub q.next_sequence_number s < 32767) :
    q.reconcile s =
      ⟨q.in_flight.drop
          (q.in_flight.length - wsub (wsub q.next_sequence_number s) 1),
        q.next_sequence_number⟩ := by
  obtain ⟨l, n⟩ := q
  simp only [PredictionQueue.reconcile] at h ⊢
  rw [if_neg (by omega)]

/-! ### Claim C5 -/

/-- Claim C5: for all non-negative durations, `throttle(real_time,
buffer_remaining, min_latency, hysteresis)` never exceeds
`buffer_remaining`, whichever branch applies. -/
theorem claim5_throttle_le_buffer
    (real_time buffer_remaining min_latency hysteresis : ℚ)
    (h1 : 0 ≤ real_time) (h2 : 0 ≤ buffer_remaining)
    (h3 : 0 ≤ min_latency) (h4 : 0 ≤ hysteresis) :
    throttle real_time buffer_remaining min_latency hysteresis ≤
      buffer_remaining := by
  unfold throttle
  exact min_le_right _ _

theorem claim5_witness :
    (0 ≤ (3 : ℚ) ∧ 0 ≤ (7 : ℚ) ∧ 0 ≤ (2 : ℚ) ∧ 0 ≤ (4 : ℚ)) ∧
      throttle 3 7 2 4 ≤ 7 :=
  ⟨by norm_num,
    claim5_throttle_le_buffer 3 7 2 4 (by norm_num) (by norm_num)
      (by norm_num) (by norm_num)⟩

/-! ### Claim C6 -/

/-- Claim C6 (original statement) is false: inside the hysteresis window the
result is still clamped to `buffer_remaining`, so with `real_time = 10`,
`buffer_remaining = 5`, `min_latency = 1`, `hysteresis = 100` (window
`[1, 101]` contains `5`) the result is `5`, not `real_time = 10`. -/
theorem claim6_counterexample :
    ((1 : ℚ) ≤ 5 ∧ (5 : ℚ) ≤ 1 + 100) ∧
      throttle 10 5 1 100 ≠ 10 := by
  refine ⟨by norm_num, ?_⟩
  unfold throttle throttleScaled
  rw [if_neg (by norm_num), if_neg (by norm_num)]
  rw [min_eq_right (by norm_num : (5 : ℚ) ≤ 10)]
  norm_num

/-- Claim C6 amended: whenever `buffer_remaining` lies between `min_latency`
and `min_latency + hysteresis` inclusive *and* `real_time ≤
buffer_remaining` (so the final clamp does not bite), `throttle` returns
`real_time` exactly. -/
theorem claim6_amended
    (real_time buffer_remaining min_latency hysteresis : ℚ)
    (h1 : 0 ≤ real_time) (h2 : 0 ≤ buffer_remaining)
    (h3 : 0 ≤ min_latency) (h4 : 0 ≤ hysteresis)
    (hlo : min_latency ≤ buffer_remaining)
    (hhi : buffer_remaining ≤ min_latency + hysteresis)
    (hrt : real_time ≤ buffer_remaining) :
    throttle real_time buffer_remaining min_latency hysteresis =
      real_time := by
  unfold throttle throttleScaled
  by_cases hA : buffer_remaining ≤ min_latency
  · have hbm : buffer_remaining = min_latency := le_antisymm hA hlo
    rw [if_pos hA, hbm]
    simp only [sub_self, zero_div, max_self, max_eq_left le_rfl]
    rw [min_eq_right (by norm_num : (0 : ℚ) ≤ 1)]
    rw [sub_zero, mul_one]
    exact min_eq_left (hbm ▸ hrt)
  · rw [if_neg hA]
    by_cases hB : min_latency + hysteresis ≤ buffer_remaining
    · have hbm : buffer_remaining = min_latency + hysteresis :=
        le_antisymm hhi hB
      rw [if_pos hB, hbm]
      simp only [sub_self, mul_zero, min_self, add_zero]
      exact min_eq_left (hbm ▸ hrt)
    · rw [if_neg hB]
      exact min_eq_left hrt

theorem claim6_witness :
    ((0 : ℚ) ≤ 1 ∧ (0 : ℚ) ≤ 2 ∧ (0 : ℚ) ≤ 1 ∧ (0 : ℚ) ≤ 3 ∧
        (1 : ℚ) ≤ 2 ∧ (2 : ℚ) ≤ 1 + 3 ∧ (1 : ℚ) ≤ 2) ∧
      throttle 1 2 1 3 = 1 :=
  ⟨by norm_num,
    claim6_amended 1 2 1 3 (by norm_num) (by norm_num) (by norm_num)
      (by norm_num) (by norm_num) (by norm_num) (by norm_num)⟩

/-- In the suffix-retention branch the retained entries are exactly the last
`min len (diff.wrapping_sub 1)` ones. -/
lemma reconcile_low_suffix {Input : Type} (q : PredictionQueue Input)
    (s : Nat) (h : wsub q.next_sequence_number s < 32767) :
    (q.reconcile s).in_flight =
      takeLast q.in_flight
        (min q.in_flight.length (wsub (wsub q.next_sequence_number s) 1)) := by
  rw [reconcile_low q s h]
  unfold takeLast
  have h2 : q.in_flight.length -
      min q.in_flight.length (wsub (wsub q.next_sequence_number s) 1) =
      q.in_flight.length - wsub (wsub q.next_sequence_number s) 1 := by
    omega
  rw [h2]

/-! ### Claim C2 -/

/-- Claim C2 (original statement) is false: on the non-ahead branch the code
retains `min(len, diff - 1)` entries, not `max(0, len - (diff - 1))` as the
claim states.  With entries `[0,1,2,3,4]`, `next = 5`, reconciling at `0`
gives `diff = 5`: the code keeps the 4 entries `[1,2,3,4]`, while the claim's
formula keeps only the last `max(0, 5 - 4) = 1` entry `[4]`. -/
theorem claim2_counterexample :
    wsub (5 : Nat) 0 < 32767 ∧
      ((⟨[0, 1, 2, 3, 4], 5⟩ : PredictionQueue Nat).reconcile 0).in_flight =
        [1, 2, 3, 4] ∧
      ((⟨[0, 1, 2, 3, 4], 5⟩ : PredictionQueue Nat).reconcile 0).in_flight ≠
        takeLast [0, 1, 2, 3, 4]
          (([0, 1, 2, 3, 4] : List Nat).length - (wsub 5 0 - 1)) := by
  decide

/-- Claim C2 amended: on the non-ahead branch (`diff < 32767`, the code's
threshold) the retained entries are exactly the last
`min(len, diff.wrapping_sub(1))` entries — equivalently the oldest
`max(0, len - (diff - 1))` entries are the ones dropped. -/
theorem claim2_amended {Input : Type} (q : PredictionQueue Input) (s : Nat)
    (h : wsub q.next_sequence_number s < 32767) :
    (q.reconcile s).in_flight =
      takeLast q.in_flight
        (min q.in_flight.length (wsub (wsub q.next_sequence_number s) 1)) :=
  reconcile_low_suffix q s h

theorem claim2_witness :
    wsub (5 : Nat) 0 < 32767 ∧
      ((⟨[0, 1, 2, 3, 4], 5⟩ : PredictionQueue Nat).reconcile 0).in_flight =
        takeLast [0, 1, 2, 3, 4] (min 5 (wsub (wsub 5 0) 1)) :=
  ⟨by decide, claim2_amended ⟨[0, 1, 2, 3, 4], 5⟩ 0 (by decide)⟩

/-! ### Claim C3 -/

/-- Claim C3 (original statement) is false: the code's ahead-threshold is
`u16::MAX / 2 = 32767`, not 32768.  At `next = 32767`, `sequence_number = 0`
the wrapping difference is `32767 < 32768`, yet the code takes the
clear-and-fast-forward branch (emptying `in_flight` and setting the counter
to 1) instead of the suffix-retention branch, which would have kept `[7]`. -/
theorem claim3_counterexample :
    wsub (32767 : Nat) 0 < 32768 ∧
      ((⟨[7], 32767⟩ : PredictionQueue Nat).reconcile 0) = ⟨[], 1⟩ ∧
      ((⟨[7], 32767⟩ : PredictionQueue Nat).reconcile 0).in_flight ≠
        takeLast [7] (min 1 (wsub (wsub 32767 0) 1)) := by
  decide

/-- Claim C3 amended: `reconcile` clears `in_flight` and fast-forwards
`next_sequence_number` to `sequence_number + 1` precisely when
`diff ≥ 32767 = u16::MAX / 2` (so the diff one below the exact ring midpoint
is already classified as ahead), and any `diff < 32767` takes the
suffix-retention branch, leaving the counter unchanged. -/
theorem claim3_amended {Input : Type} (q : PredictionQueue Input) (s : Nat) :
    (32767 ≤ wsub q.next_sequence_number s →
        q.reconcile s = ⟨[], wadd s 1⟩) ∧
      (wsub q.next_sequence_number s < 32767 →
        (q.reconcile s).next_sequence_number = q.next_sequence_number ∧
          (q.reconcile s).in_flight =
            takeLast q.in_flight
              (min q.in_flight.length
                (wsub (wsub q.next_sequence_number s) 1))) := by
  refine ⟨fun h => reconcile_high q s h, fun h => ⟨?_, reconcile_low_suffix q s h⟩⟩
  rw [reconcile_low q s h]

theorem claim3_witness :
    (32767 ≤ wsub (5 : Nat) 10 ∧
        ((⟨[1, 2], 5⟩ : PredictionQueue Nat).reconcile 10) = ⟨[], 11⟩) ∧
      (wsub (5 : Nat) 2 < 32767 ∧
        ((⟨[0, 1, 2, 3, 4], 5⟩ : PredictionQueue Nat).reconcile
            2).next_sequence_number = 5) :=
  ⟨⟨by decide, (claim3_amended ⟨[1, 2], 5⟩ 10).1 (by decide)⟩,
    ⟨by decide, ((claim3_amended ⟨[0, 1, 2, 3, 4], 5⟩ 2).2 (by decide)).1⟩⟩

/-! ### Claim C7 -/

/-- Claim C7 (original statement) is false at `s = next_sequence_number`:
with `next = 5` and entry `[42]` in flight, `reconcile 5` (a sequence number
that has not been recorded, at ring-distance 0 from `next`) removes nothing
and leaves the counter at 5, so the next `record` is associated with 5, not
`s + 1 = 6`. -/
theorem claim7_counterexample :
    wsub (5 : Nat) 5 = 0 ∧
      ((⟨[42], 5⟩ : PredictionQueue Nat).reconcile 5).in_flight = [42] ∧
      ((⟨[42], 5⟩ : PredictionQueue Nat).reconcile
          5).next_sequence_number = 5 ∧
      (5 : Nat) ≠ wadd 5 1 := by
  decide

/-- Claim C7 amended: reconciling at a sequence number *strictly* later than
`next_sequence_number` in ring-ordering (wrapping distance
`1 ≤ s - next ≤ 32767`) clears all in-flight entries and fast-forwards the
counter to `s + 1`, so subsequent records are associated with sequence
numbers starting at `s + 1`. -/
theorem claim7_amended {Input : Type} (q : PredictionQueue Input) (s : Nat)
    (h1 : 1 ≤ wsub s q.next_sequence_number)
    (h2 : wsub s q.next_sequence_number ≤ 32767) :
    q.reconcile s = ⟨[], wadd s 1⟩ := by
  apply reconcile_high
  unfold wsub at h1 h2 ⊢
  omega

theorem claim7_witness :
    (1 ≤ wsub (10 : Nat) 5 ∧ wsub (10 : Nat) 5 ≤ 32767) ∧
      ((⟨[0, 1, 2, 3, 4], 5⟩ : PredictionQueue Nat).reconcile 10) =
        ⟨[], 11⟩ :=
  ⟨by decide, claim7_amended ⟨[0, 1, 2, 3, 4], 5⟩ 10 (by decide) (by decide)⟩

/-! ### Claim C10 -/

/-- Claim C10 (original statement) is false once `in_flight` holds at least
2^16 entries: with 65536 in-flight entries and `next = 0`, reconciling at
`sequence_number = 0` (wrapping difference 0) computes
`diff.wrapping_sub(1) = 65535` and drains `65536 - 65535 = 1` entry, so the
state does change. -/
lemma reconcile_zero_diff_length {Input : Type} (l : List Input) :
    (PredictionQueue.reconcile ⟨l, 0⟩ 0).in_flight.length =
      l.length - (l.length - 65535) := by
  rw [reconcile_low ⟨l, 0⟩ 0 (show wsub (0 : Nat) 0 < 32767 by decide)]
  have hw : wsub (wsub (0 : Nat) 0) 1 = 65535 := by decide
  simp only [List.length_drop]
  rw [hw]

theorem claim10_counterexample :
    wsub (0 : Nat) 0 = 0 ∧
      (PredictionQueue.reconcile
          ⟨List.replicate 65536 (0 : Nat), 0⟩ 0) ≠
        ⟨List.replicate 65536 (0 : Nat), 0⟩ := by
  refine ⟨by decide, fun hEq => ?_⟩
  have h1 := reconcile_zero_diff_length (List.replicate 65536 (0 : Nat))
  rw [hEq, List.length_replicate] at h1
  omega

/-- Claim C10 amended: provided `in_flight` holds at most 65535 entries (no
full wrap of the sequence ring), reconciling at the current
`next_sequence_number` (wrapping difference 0) leaves the entire state
unchanged, even though that number has not yet been recorded. -/
theorem claim10_amended {Input : Type} (q : PredictionQueue Input) (s : Nat)
    (hlen : q.in_flight.length ≤ 65535)
    (h : wsub q.next_sequence_number s = 0) :
    q.reconcile s = q := by
  rw [reconcile_low q s (by omega), h]
  have hw : wsub (0 : Nat) 1 = 65535 := by decide
  rw [hw]
  have hz : q.in_flight.length - 65535 = 0 := by omega
  rw [hz, List.drop_zero]

theorem claim10_witness :
    ((⟨[3, 4], 7⟩ : PredictionQueue Nat).in_flight.length ≤ 65535 ∧
        wsub (7 : Nat) 7 = 0) ∧
      ((⟨[3, 4], 7⟩ : PredictionQueue Nat).reconcile 7) = ⟨[3, 4], 7⟩ :=
  ⟨by decide, claim10_amended ⟨[3, 4], 7⟩ 7 (by decide) (by decide)⟩

/-! ### Claim C4 -/

/-- Claim C4 (original statement) is false: with `next = 5` and in-flight
entries `[10, 11]`, `reconcile 5` is a no-op (wrapping difference 0), and the
follow-up `reconcile 4` — where `4` is older than `5` in ring-ordering —
prunes both remaining entries, so the second call does change the retained
entries. -/
theorem claim4_counterexample :
    wsub (5 : Nat) 4 < 32768 ∧
      ((⟨[10, 11], 5⟩ : PredictionQueue Nat).reconcile 5).reconcile 4 ≠
        (⟨[10, 11], 5⟩ : PredictionQueue Nat).reconcile 5 := by
  decide

/-- Chain rule for wrapping subtraction. -/
lemma wsub_chain (n a b : Nat) :
    wsub n b = (wsub n a + wsub a b) % 65536 := by
  unfold wsub
  omega

/-- Claim C4 amended: `reconcile a` followed by `reconcile b` with `b` the
same as or older than `a` in ring-ordering leaves the ledger exactly as
after `reconcile a` alone, provided `a` is not exactly the current
`next_sequence_number` (wrapping difference at least 1) and the second call
still classifies `b` as past (its wrapping difference stays below the
ahead-threshold). -/
theorem claim4_amended {Input : Type} (q : PredictionQueue Input)
    (a b : Nat) (hb : wsub a b < 32768)
    (ha : 1 ≤ wsub q.next_sequence_number a)
    (h2 : wsub (q.reconcile a).next_sequence_number b ≤ 32766) :
    (q.reconcile a).reconcile b = q.reconcile a := by
  by_cases hhi : 32767 ≤ wsub q.next_sequence_number a
  · rw [reconcile_high q a hhi] at h2 ⊢
    rw [reconcile_low ⟨[], wadd a 1⟩ b (by omega)]
    simp
  · have hlo : wsub q.next_sequence_number a < 32767 := by omega
    rw [reconcile_low q a hlo] at h2 ⊢
    rw [reconcile_low _ b (by omega)]
    simp only [PredictionQueue.mk.injEq, and_true]
    have hchain := wsub_chain q.next_sequence_number a b
    have hda := wsub_lt_ring q.next_sequence_number a
    have hdb := wsub_lt_ring a b
    have hone : wsub (wsub q.next_sequence_number a) 1 =
        wsub q.next_sequence_number a - 1 :=
      wsub_one_of_pos ha hda
    have honeb : wsub (wsub q.next_sequence_number b) 1 =
        wsub q.next_sequence_number b - 1 := by
      apply wsub_one_of_pos _ (wsub_lt_ring _ _)
      omega
    simp only [List.length_drop] at h2 ⊢
    rw [honeb]
    have hz : q.in_flight.length -
        (q.in_flight.length - wsub (wsub q.next_sequence_number a) 1) -
        (wsub q.next_sequence_number b - 1) = 0 := by
      rw [hone]
      omega
    rw [hz, List.drop_zero]

theorem claim4_witness :
    (wsub (2 : Nat) 0 < 32768 ∧ 1 ≤ wsub (5 : Nat) 2 ∧
        wsub ((⟨[0, 1, 2, 3, 4], 5⟩ : PredictionQueue Nat).reconcile
            2).next_sequence_number 0 ≤ 32766) ∧
      ((⟨[0, 1, 2, 3, 4], 5⟩ : PredictionQueue Nat).reconcile 2).reconcile 0 =
        (⟨[0, 1, 2, 3, 4], 5⟩ : PredictionQueue Nat).reconcile 2 :=
  ⟨by decide,
    claim4_amended ⟨[0, 1, 2, 3, 4], 5⟩ 2 0 (by decide) (by decide)
      (by decide)⟩

/-! ### Claim C8 -/

/-- Claim C8: jitter-buffer delay semantics.  After a push at time `t` onto a
queue with no active run: (1) any `take` with `now - t < delay` returns
nothing and leaves the queue untouched; (2) for any queue whose run began at
`t`, once `delay ≤ now - t` a `take` pops the head (FIFO, one per call) and
keeps the epoch, and on the empty queue returns nothing and resets the
epoch; (3) after the reset, a fresh push at `t2` followed by a `take` before
`t2 + delay2` again returns nothing. -/
theorem claim8_jitter_delay {T : Type} (q0 : InputQueue T) (max : Nat)
    (x : T) (t : Nat) (h0 : q0.epoch = none) :
    (∀ now delay, now - t < delay →
        (q0.push max x t).take now delay = (none, q0.push max x t)) ∧
      (∀ (q : InputQueue T) (now delay : Nat), q.epoch = some t →
        delay ≤ now - t →
        (q.queue = [] → q.take now delay = (none, ⟨[], none⟩)) ∧
          (∀ y ys, q.queue = y :: ys →
            q.take now delay = (some y, ⟨ys, some t⟩))) ∧
      (∀ (max2 : Nat) (x2 : T) (t2 now2 delay2 : Nat),
        now2 - t2 < delay2 →
        ((⟨[], none⟩ : InputQueue T).push max2 x2 t2).take now2 delay2 =
          (none, (⟨[], none⟩ : InputQueue T).push max2 x2 t2)) := by
  refine ⟨?_, ?_, ?_⟩
  · intro now delay hn
    have he : (q0.push max x t).epoch = some t := by
      simp [InputQueue.push, h0]
    simp [InputQueue.take, he, hn]
  · intro q now delay he hd
    constructor
    · intro hq
      simp [InputQueue.take, he, hq, Nat.not_lt.mpr hd]
    · intro y ys hq
      simp [InputQueue.take, he, hq, Nat.not_lt.mpr hd]
  · intro max2 x2 t2 now2 delay2 hn
    simp [InputQueue.take, InputQueue.push, hn]

theorem claim8_witness :
    ((⟨[], none⟩ : InputQueue Nat).epoch = none ∧ (11 : Nat) - 10 < 5 ∧
        (30 : Nat) - 10 ≥ 5) ∧
      (((⟨[], none⟩ : InputQueue Nat).push 4 9 10).take 11 5 =
          (none, (⟨[], none⟩ : InputQueue Nat).push 4 9 10) ∧
        (⟨[7, 8], some 10⟩ : InputQueue Nat).take 30 5 =
          (some 7, ⟨[8], some 10⟩) ∧
        (⟨[], some 10⟩ : InputQueue Nat).take 30 5 = (none, ⟨[], none⟩)) :=
  ⟨⟨rfl, by decide, by decide⟩,
    (claim8_jitter_delay (⟨[], none⟩ : InputQueue Nat) 4 9 10 rfl).1 11 5
      (by decide),
    ((claim8_jitter_delay (⟨[], none⟩ : InputQueue Nat) 4 9 10 rfl).2.1
        ⟨[7, 8], some 10⟩ 30 5 rfl (by decide)).2 7 [8] rfl,
    ((claim8_jitter_delay (⟨[], none⟩ : InputQueue Nat) 4 9 10 rfl).2.1
        ⟨[], some 10⟩ 30 5 rfl (by decide)).1 rfl⟩

/-! ### Claim C9 -/

/-- One `push` preserves the capacity bound provided `max ≥ 1`. -/
lemma push_length_le {T : Type} (q : InputQueue T) (max : Nat) (x : T)
    (now : Nat) (hmax : 1 ≤ max) (hlen : q.queue.length ≤ max) :
    (q.push max x now).queue.length ≤ max := by
  unfold InputQueue.push
  by_cases h : q.queue.length = max
  · simp only [if_pos h, List.length_append, List.length_tail,
      List.length_cons, List.length_nil]
    omega
  · simp only [if_neg h, List.length_append, List.length_cons,
      List.length_nil]
    omega

/-- Claim C9 (original statement) is false at capacity `max = 0`: the code
pops the front only when `len == max`, and then appends unconditionally, so
pushing onto an empty queue with `max = 0` pops nothing and produces a queue
of length 1 > 0 (and further pushes keep growing it, since `len == 0` never
holds again). -/
theorem claim9_counterexample :
    ((⟨[], none⟩ : InputQueue Nat).push 0 7 3).queue.length = 1 ∧
      ¬ ((⟨[], none⟩ : InputQueue Nat).push 0 7 3).queue.length ≤ 0 := by
  decide

/-- Claim C9 amended: for every capacity `max ≥ 1` and every starting queue
within capacity, any sequence of `push max` calls keeps the length at most
`max`; and whenever a push occurs while the queue holds exactly `max` items,
the oldest item (the queue front) is the one discarded. -/
theorem claim9_amended {T : Type} (max : Nat) (q : InputQueue T)
    (hmax : 1 ≤ max) (hlen : q.queue.length ≤ max) :
    (∀ ps : List (T × Nat),
        (ps.foldl (fun acc p => acc.push max p.1 p.2) q).queue.length ≤
          max) ∧
      (∀ (x : T) (now : Nat), q.queue.length = max →
        (q.push max x now).queue = q.queue.tail ++ [x]) := by
  constructor
  · intro ps
    induction ps generalizing q with
    | nil => simpa using hlen
    | cons p ps ih => exact ih _ (push_length_le q max p.1 p.2 hmax hlen)
  · intro x now h
    simp [InputQueue.push, h]

theorem claim9_witness :
    ((1 : Nat) ≤ 2 ∧ (⟨[5, 6], some 0⟩ : InputQueue Nat).queue.length ≤ 2) ∧
      (([(7, 1), (8, 2), (9, 3)] : List (Nat × Nat)).foldl
          (fun acc p => acc.push 2 p.1 p.2)
          (⟨[5, 6], some 0⟩ : InputQueue Nat)).queue.length ≤ 2 ∧
      ((⟨[5, 6], some 0⟩ : InputQueue Nat).push 2 9 4).queue = [6, 9] :=
  ⟨⟨by decide, by decide⟩,
    (claim9_amended 2 ⟨[5, 6], some 0⟩ (by decide) (by decide)).1
      [(7, 1), (8, 2), (9, 3)],
    Eq.trans
      ((claim9_amended 2 ⟨[5, 6], some 0⟩ (by decide) (by decide)).2 9 4
        (by decide))
      (by decide)⟩

/-! ### Claim C1 -/

/-- Projection form of the suffix-retention branch. -/
lemma reconcile_low_in_flight {Input : Type} (q : PredictionQueue Input)
    (s : Nat) (h : wsub q.next_sequence_number s < 32767) :
    (q.reconcile s).in_flight =
      q.in_flight.drop
        (q.in_flight.length - wsub (wsub q.next_sequence_number s) 1) := by
  rw [reconcile_low q s h]

/-- If the removal predicate of `keptFrom` holds exactly on indices below
`k`, then `keptFrom` is the suffix obtained by dropping the first `k - i`
elements. -/
lemma keptFrom_eq_drop {Input : Type} (next len s : Nat)
    (l : List Input) :
    ∀ i k : Nat,
      (∀ j, i ≤ j → j < i + l.length →
        (j < k ↔ wsub s (wsub (next + j) len) < 32768)) →
      keptFrom next len s i l = l.drop (k - i) := by
  induction l with
  | nil =>
    intro i k _
    simp [keptFrom]
  | cons x xs ih =>
    intro i k h
    have hmem : i < i + (x :: xs).length := by
      simp only [List.length_cons]
      omega
    have hstep : ∀ j, i + 1 ≤ j → j < (i + 1) + xs.length →
        (j < k ↔ wsub s (wsub (next + j) len) < 32768) := by
      intro j hj1 hj2
      refine h j (by omega) ?_
      simp only [List.length_cons]
      omega
    by_cases hp : wsub s (wsub (next + i) len) < 32768
    · have hik : i < k := (h i le_rfl hmem).2 hp
      simp only [keptFrom]
      rw [if_pos hp, ih (i + 1) k hstep]
      have hki : k - i = (k - (i + 1)) + 1 := by omega
      rw [hki, List.drop_succ_cons]
    · have hik : ¬ i < k := fun hlt => hp ((h i le_rfl hmem).1 hlt)
      simp only [keptFrom]
      rw [if_neg hp, ih (i + 1) k hstep]
      have hk1 : k - (i + 1) = 0 := by omega
      have hk2 : k - i = 0 := by omega
      rw [hk1, hk2, List.drop_zero, List.drop_zero]

/-- Arithmetic core of claim C1: when `sequence_number` has been recorded
(`1 ≤ diff ≤ len`) and fewer than half a ring of entries are in flight, the
entry at index `j` is at or before `sequence_number` in ring-ordering
exactly when `j` falls in the dropped prefix. -/
lemma reconcile_pred_iff (n s len j : Nat)
    (h1 : 1 ≤ wsub n s) (h2 : wsub n s ≤ len) (h3 : len ≤ 32766)
    (hj : j < len) :
    (j < len - (wsub n s - 1) ↔ wsub s (wsub (n + j) len) < 32768) := by
  unfold wsub at h1 h2 ⊢
  omega

/-- In the suffix branch `reconcile` drops exactly one entry fewer than the
wrapping difference, so at `next = 0`, `s = 65535` (difference 1) all
entries are dropped. -/
lemma reconcile_diff_one_nil {Input : Type} (l : List Input) :
    (PredictionQueue.reconcile ⟨l, 0⟩ 65535).in_flight = [] := by
  rw [reconcile_low_in_flight ⟨l, 0⟩ 65535
    (show wsub (0 : Nat) 65535 < 32767 by decide)]
  have hw : wsub (wsub (0 : Nat) 65535) 1 = 0 := by decide
  simp only [hw, Nat.sub_zero, List.drop_length]

/-- The spec-side retained list keeps the head entry whenever that entry is
not at-or-before `s` in ring-ordering, hence is nonempty. -/
lemma specKept_zero_cons_ne_nil {Input : Type} (x : Input)
    (xs : List Input) (s : Nat)
    (hpred : ¬ wsub s (wsub 0 (xs.length + 1)) < 32768) :
    specKept ⟨x :: xs, 0⟩ s ≠ [] := by
  unfold specKept
  simp only [List.length_cons, keptFrom, Nat.add_zero]
  rw [if_neg hpred]
  simp

/-- Claim C1 (original statement) is false once more than half a ring of
entries is in flight: with 32769 in-flight entries, `next = 0`, reconciling
at `s = 65535` (wrapping distance 1, so `s` was recorded) empties the queue,
although the oldest entry carries sequence number 32767, which is *not*
`≤ 65535` in ring-ordering (`65535 - 32767 = 32768`, not strictly below the
half ring) and per the claim should have been retained. -/
theorem claim1_counterexample :
    (1 ≤ wsub (0 : Nat) 65535 ∧
        wsub (0 : Nat) 65535 ≤ (List.replicate 32769 (0 : Nat)).length) ∧
      (PredictionQueue.reconcile ⟨List.replicate 32769 (0 : Nat), 0⟩
            65535).in_flight ≠
        specKept ⟨List.replicate 32769 (0 : Nat), 0⟩ 65535 := by
  refine ⟨⟨by decide, ?_⟩, ?_⟩
  · rw [List.length_replicate]
    decide
  · rw [reconcile_diff_one_nil]
    have hrep : List.replicate 32769 (0 : Nat) =
        0 :: List.replicate 32768 0 := by
      rw [show (32769 : Nat) = 32768 + 1 by norm_num, List.replicate_succ]
    rw [hrep]
    intro hEq
    refine specKept_zero_cons_ne_nil 0 (List.replicate 32768 0) 65535 ?_
      hEq.symm
    rw [List.length_replicate]
    decide

/-- Claim C1 amended: provided fewer than half a ring of entries is in
flight (`len ≤ 32766`), reconciling at any recorded sequence number
(`1 ≤ diff ≤ len`) retains exactly the entries that are not at-or-before
`sequence_number` in ring-ordering, in their original order; in particular
recording 0..4 from 0 and reconciling at 0 leaves the entries recorded at
1, 2, 3, 4 (see the witness). -/
theorem claim1_amended {Input : Type} (q : PredictionQueue Input) (s : Nat)
    (hlen : q.in_flight.length ≤ 32766)
    (h1 : 1 ≤ wsub q.next_sequence_number s)
    (h2 : wsub q.next_sequence_number s ≤ q.in_flight.length) :
    (q.reconcile s).in_flight = specKept q s := by
  have hlow : wsub q.next_sequence_number s < 32767 := by omega
  rw [reconcile_low_in_flight q s hlow]
  unfold specKept
  rw [keptFrom_eq_drop q.next_sequence_number q.in_flight.length s
    q.in_flight 0
    (q.in_flight.length - (wsub q.next_sequence_number s - 1))
    (fun j _ hjl =>
      reconcile_pred_iff q.next_sequence_number s q.in_flight.length j h1
        h2 hlen (by omega))]
  have hd1 : wsub (wsub q.next_sequence_number s) 1 =
      wsub q.next_sequence_number s - 1 :=
    wsub_one_of_pos h1 (wsub_lt_ring _ _)
  rw [hd1, Nat.sub_zero]

theorem claim1_witness :
    ((⟨[0, 1, 2, 3, 4], 5⟩ : PredictionQueue Nat).in_flight.length ≤ 32766 ∧
        1 ≤ wsub (5 : Nat) 0 ∧
        wsub (5 : Nat) 0 ≤
          (⟨[0, 1, 2, 3, 4], 5⟩ : PredictionQueue Nat).in_flight.length) ∧
      ((⟨[0, 1, 2, 3, 4], 5⟩ : PredictionQueue Nat).reconcile 0).in_flight =
        specKept ⟨[0, 1, 2, 3, 4], 5⟩ 0 ∧
      specKept (⟨[0, 1, 2, 3, 4], 5⟩ : PredictionQueue Nat) 0 =
        [1, 2, 3, 4] :=
  ⟨by decide,
    claim1_amended ⟨[0, 1, 2, 3, 4], 5⟩ 0 (by decide) (by decide)
      (by decide),
    by decide⟩
